import Mathlib

/-!
Verification of the IPO candidate-screening pipeline of `services.py`
(`IPOStockService`): listing fetch price extraction, price / market-cap /
ownership enrichment, the seven-predicate screening filter, and the
time-boxed pickle cache.  Python strings are embedded as `List Char`
(`Str`); machine integers are `Int`/`Nat`; nullable values are `Option`;
fallible fetches are `Option`-valued oracles; the whole-run exception
path (`astype(int)` failure) is an `Option` result.
-/

namespace StockSight

/-- Character strings, embedding Python `str` as a list of characters. -/
abbrev Str := List Char

/-- Numeric value of a decimal digit string (e.g. `['1','2','3'] ↦ 123`),
the embedding of Python `int(s)` on all-digit strings. -/
def digitsVal (l : Str) : Nat :=
  l.foldl (fun a c => 10 * a + (c.toNat - 48)) 0

/-- Python `str.isdigit()`: true iff the string is nonempty and every
character is a digit (`"".isdigit()` is `False` in Python). -/
def pyIsDigit (l : Str) : Bool :=
  !l.isEmpty && l.all Char.isDigit

-- =====================================================================
-- §1  Offer-price extraction (services.py lines 149-157, inside
--     `get_jpx_ipo_list_multi_year`):
--       if "～" in price_text: price_text = price_text.split("～")[-1]
--       public_price = int(price_text.replace(",", "")) if
--           price_text.replace(",", "").isdigit() else None
-- =====================================================================

/-- Python `s.replace(",", "")`: drop every comma (thousands separator). -/
def removeCommas (l : Str) : Str :=
  l.filter (fun c => c ≠ ',')

/-- Python `s.split("～")[-1]`: the suffix after the last occurrence of
`'～'` (the whole string when `'～'` does not occur). -/
def afterLastTilde (l : Str) : Str :=
  (l.reverse.takeWhile (fun c => c ≠ '～')).reverse

/-- Embedding of services.py lines 149-157: take the upper bound of a
`"P～Q"` price range, strip commas, and coerce to an integer exactly when
the residue passes `str.isdigit()`; otherwise the offer price is `None`. -/
def extract_offer_price (priceText : Str) : Option Int :=
  let t := if priceText.contains '～' then afterLastTilde priceText else priceText
  let u := removeCommas t
  if pyIsDigit u then some (digitsVal u : Int) else none

-- =====================================================================
-- §3  Market-cap parsing (services.py lines 200-222,
--     `IPOStockService.get_market_cap`):
--       match = re.match(r"(\d+)(億)(\d+)?(万)?", text)
--       oku = int(match.group(1)); man = int(match.group(3)) or 0
--       return oku + man / 10000
--     `re.match` anchors at the start only; the optional digit group
--     after 億 is greedy and is used whether or not a 万 follows.
-- =====================================================================

/-- Embedding of the cell-text parse of `get_market_cap`: anchored at
the start, a nonempty digit run, the literal `億`, then an optional
greedy digit run (`man`, defaulting to 0); the trailing optional `万`
never affects the value.  Returns `oku + man / 10000`. -/
def capParse (text : Str) : Option ℚ :=
  if (text.takeWhile Char.isDigit).isEmpty then none
  else if (text.dropWhile Char.isDigit).head? = some '億' then
    some ((digitsVal (text.takeWhile Char.isDigit) : ℚ) +
      (digitsVal ((text.dropWhile Char.isDigit).tail.takeWhile Char.isDigit) : ℚ) / 10000)
  else none

/-- Embedding of `IPOStockService.get_market_cap`: `none` models a
request failure (the `except` path); otherwise the first table cell
whose text parses wins, and `none` results when no cell parses. -/
def get_market_cap (page : Option (List Str)) : Option ℚ :=
  match page with
  | none => none
  | some tds => tds.findSome? capParse

/-- Spec-side matcher, following the spec's words: text of the exact
form `<a>億<b>万` for integers `a`, `b` (a nonempty digit run, `億`, a
nonempty digit run, `万`, and nothing else). -/
def specMatchesOkuMan (text : Str) : Bool :=
  !(text.takeWhile Char.isDigit).isEmpty &&
    (match text.dropWhile Char.isDigit with
     | '億' :: r2 =>
        !(r2.takeWhile Char.isDigit).isEmpty &&
          r2.dropWhile Char.isDigit == ['万']
     | _ => false)

/-- Spec-side matcher, following the spec's words: text of the exact
form `<a>億` for an integer `a` (a nonempty digit run, `億`, nothing
else). -/
def specMatchesOkuOnly (text : Str) : Bool :=
  !(text.takeWhile Char.isDigit).isEmpty &&
    text.dropWhile Char.isDigit == ['億']

-- =====================================================================
-- §4  Ownership classifier (services.py lines 227-250,
--     `IPOStockService.is_owner_ceo`):
--       for tr in soup.find_all("tr"):
--           tds = tr.find_all("td")
--           if len(tds) >= 2:
--               role_text = tds[1].get_text(strip=True)
--               match = re.search(r"\(([\d.]+)%\)", role_text)
--               ratio = float(match.group(1)) if match else 0.0
--               if "取締役" in role_text and ratio >= 40:
--                   return True
--       return False
--     wrapped in try/except returning False; a `float()` ValueError on
--     a malformed token such as "1.2.3" is caught by the same except
--     and aborts the whole scan.
-- =====================================================================

/-- Character class `[\d.]` of the percentage regex. -/
def isDigitDot (c : Char) : Bool := c.isDigit || c == '.'

/-- Embedding of `re.search(r"\(([\d.]+)%\)", s)`: scan left to right;
at each `'('` take the maximal nonempty `[\d.]` run and require it to
be followed by `'%'` then `')'`; the first successful position yields
the captured run.  (The run is forced maximal: a shorter backtracked
run would leave a `[\d.]` character where `'%'` is required.) -/
def findPct : Str → Option Str
  | [] => none
  | '(' :: rest =>
      match rest.dropWhile isDigitDot with
      | '%' :: ')' :: _ =>
          if (rest.takeWhile isDigitDot).isEmpty then findPct rest
          else some (rest.takeWhile isDigitDot)
      | _ => findPct rest
  | _ :: rest => findPct rest

/-- Python `float()` restricted to tokens drawn from `[\d.]+` (the only
inputs the classifier feeds it): an optional integer part, at most one
dot, an optional fractional part, and at least one digit overall;
anything else (e.g. `"1.2.3"` or `"."`) raises, modelled as `none`. -/
def pyFloat (l : Str) : Option ℚ :=
  match l.dropWhile (fun c => c ≠ '.') with
  | [] => if !l.isEmpty && l.all Char.isDigit then some (digitsVal l : ℚ) else none
  | '.' :: frac =>
      if (l.takeWhile (fun c => c ≠ '.')).all Char.isDigit && frac.all Char.isDigit &&
          !((l.takeWhile (fun c => c ≠ '.')).isEmpty && frac.isEmpty) then
        some ((digitsVal (l.takeWhile (fun c => c ≠ '.')) : ℚ) +
          (digitsVal frac : ℚ) / (10 : ℚ) ^ frac.length)
      else none
  | _ => none

/-- Prefix test for character lists (needle first). -/
def leadsWith : Str → Str → Bool
  | [], _ => true
  | _ :: _, [] => false
  | a :: n, b :: h => a == b && leadsWith n h

/-- Substring containment, embedding Python `needle in haystack`. -/
def containsSeq (n : Str) : Str → Bool
  | [] => n.isEmpty
  | c :: t => leadsWith n (c :: t) || containsSeq n t

/-- Director-role marker scanned for in the officer table. -/
def roleMarker : Str := "取締役".data

/-- Outcome of one officer-table row in the scan loop. -/
inductive RowOut
  | qual
  | abort
  | cont
deriving DecidableEq, Repr

/-- Per-row step of the classifier loop: rows with fewer than two cells
are skipped; a missing percentage match leaves `ratio = 0.0` so the
test fails and the loop continues; a matched token that `float()`
rejects raises and the enclosing `except` returns `False` (abort); an
accepted ratio qualifies when the second cell contains the marker and
`ratio >= 40`. -/
def rowOut (tds : List Str) : RowOut :=
  match tds with
  | _ :: c2 :: _ =>
      match findPct c2 with
      | none => RowOut.cont
      | some g =>
          match pyFloat g with
          | none => RowOut.abort
          | some ratio =>
              if containsSeq roleMarker c2 && decide ((40 : ℚ) ≤ ratio)
              then RowOut.qual else RowOut.cont
  | _ => RowOut.cont

/-- Scan loop of `is_owner_ceo` over the parsed table rows. -/
def is_owner_ceo_rows : List (List Str) → Bool
  | [] => false
  | tds :: rest =>
      match rowOut tds with
      | RowOut.qual => true
      | RowOut.abort => false
      | RowOut.cont => is_owner_ceo_rows rest

/-- Embedding of `IPOStockService.is_owner_ceo`: `none` models a fetch
failure (the `except` path gives `False`); otherwise the scan loop. -/
def is_owner_ceo (page : Option (List (List Str))) : Bool :=
  match page with
  | none => false
  | some rows => is_owner_ceo_rows rows

/-- Spec-side row predicate, following the claim's words: the row has a
second cell that contains the director-role marker and whose
parenthesized holding percentage parses to a value `>= 40.0`. -/
def specRowQualifies (tds : List Str) : Bool :=
  match tds with
  | _ :: c2 :: _ =>
      containsSeq roleMarker c2 &&
        (match findPct c2 with
         | some g =>
            match pyFloat g with
            | some ratio => decide ((40 : ℚ) ≤ ratio)
            | none => false
         | none => false)
  | _ => false

/-- Row whose second cell carries a parenthesized `[\d.]+%` token that
`float()` rejects: reaching such a row aborts the scan. -/
def rowAborts (tds : List Str) : Bool :=
  match tds with
  | _ :: c2 :: _ =>
      match findPct c2 with
      | some g => (pyFloat g).isNone
      | none => false
  | _ => false

-- =====================================================================
-- §6  Cache management (services.py lines 331-365).
--     Times are modelled as integers (seconds); `timedelta(days=7)`
--     is `7 * 86400`.  The on-disk pickle blob is
--     `Option (Except Unit CacheEntry)`: `none` = file absent,
--     `some (.error ())` = deserialization fails (corrupt blob),
--     `some (.ok e)` = a loaded `{data, timestamp}` dict whose two keys
--     are read with `.get` (hence `Option` fields).
-- =====================================================================

/-- Constant `CACHE_EXPIRY_DAYS = 7` from constants.py. -/
def CACHE_EXPIRY_DAYS : Int := 7

/-- Seconds per day, fixing the unit of the integer time model. -/
def secondsPerDay : Int := 86400

/-- Row of the final screening result, in display-column order
(code, name, listing date, current price, offer price, market cap). -/
structure ResultRow where
  code : Str
  company : Str
  listedDate : Str
  currentPrice : Option Int
  publicPrice : Option Int
  marketCap : Option ℚ
deriving DecidableEq, Repr

/-- Final result frame: the fixed column list plus the row list
(a list is densely indexed, matching `reset_index(drop=True)`). -/
structure ResultFrame where
  cols : List Str
  rows : List ResultRow
deriving DecidableEq, Repr

/-- Cache blob contents: the `{data, timestamp}` dict, each key read
back with `dict.get` (absent key gives `None`). -/
structure CacheEntry where
  data : Option ResultFrame
  timestamp : Option Int
deriving DecidableEq, Repr

/-- Embedding of `IPOStockService.load_cache` (lines 343-357): absent
file or failed unpickling give `(None, None)` (with a warning, not an
exception); otherwise the dict's `data` and `timestamp` entries. -/
def load_cache (file : Option (Except Unit CacheEntry)) :
    Option ResultFrame × Option Int :=
  match file with
  | none => (none, none)
  | some (Except.error _) => (none, none)
  | some (Except.ok e) => (e.data, e.timestamp)

/-- Embedding of `IPOStockService.is_cache_valid` (lines 359-365):
a `None` timestamp is invalid, otherwise valid exactly when
`now < timestamp + timedelta(days=CACHE_EXPIRY_DAYS)`. -/
def is_cache_valid (timestamp : Option Int) (now : Int) : Bool :=
  match timestamp with
  | none => false
  | some ts => decide (now < ts + CACHE_EXPIRY_DAYS * secondsPerDay)

-- =====================================================================
-- §2  Price enricher (services.py lines 180-195) and
-- §5  Orchestrator `get_promising_ipos` (lines 255-326).
--     The three per-code lookups are oracles (`quote`, `capOf`,
--     `ownerOf`); each row's enrichment calls are logged as effects.
-- =====================================================================

/-- Python `str.zfill(4)`: pad on the left with `'0'` to width 4. -/
def zfill4 (s : Str) : Str := List.replicate (4 - s.length) '0' ++ s

/-- Ticker symbol `code.zfill(4) + ".T"` queried per row. -/
def tickerOf (code : Str) : Str := zfill4 code ++ ".T".data

/-- Python 3 `round()` to an integer: round half to even. -/
def pyRound (q : ℚ) : Int :=
  if q - ⌊q⌋ < 1 / 2 then ⌊q⌋
  else if (1 : ℚ) / 2 < q - ⌊q⌋ then ⌊q⌋ + 1
  else if 2 ∣ ⌊q⌋ then ⌊q⌋ else ⌊q⌋ + 1

/-- Listing record scraped by `get_jpx_ipo_list_multi_year`: the five
dict keys of services.py lines 159-167. -/
structure ListingRow where
  listedDate : Str
  market : Str
  code : Str
  company : Str
  publicPrice : Option Int
deriving DecidableEq, Repr

/-- Columns of `pd.DataFrame(records)` when records exist, in key
insertion order (an empty records list yields a frame with no columns,
which is why the orchestrator checks for `証券コード`). -/
def listingCols : List Str :=
  ["上場日".data, "市場".data, "証券コード".data, "企業名".data, "公募価格".data]

/-- Listing table handed from the fetch stage to the orchestrator. -/
structure ListingFrame where
  cols : List Str
  rows : List ListingRow
deriving DecidableEq, Repr

/-- Listing row with the `現在株価` value attached. -/
structure PricedRow where
  base : ListingRow
  currentPrice : Option Int
deriving DecidableEq, Repr

/-- Frame produced by the price enricher. -/
structure PricedFrame where
  cols : List Str
  rows : List PricedRow
deriving DecidableEq, Repr

/-- Embedding of `IPOStockService.get_current_prices` (lines 180-195):
operates on `df.copy()`, adds the single column `現在株価`, and per row
queries the quote oracle at `code.zfill(4) + ".T"` for the latest daily
close, rounding it; a failed or empty lookup leaves `None`. -/
def get_current_prices (quote : Str → Option ℚ) (df : ListingFrame) : PricedFrame :=
  { cols := df.cols ++ ["現在株価".data]
  , rows := df.rows.map (fun r =>
      { base := r, currentPrice := (quote (tickerOf r.code)).map pyRound }) }

/-- Fully enriched row: price, market cap (already numeric or `None`,
so `pd.to_numeric(errors="coerce")` is the identity on it), ownership
flag, and the listing year. -/
structure EnrichedRow where
  priced : PricedRow
  marketCap : Option ℚ
  ownerCeo : Bool
  listingYear : Int
deriving DecidableEq, Repr

/-- Embedding of `df["上場日"].str[:4].astype(int)` for one date: the
first four characters must form a nonempty digit string, otherwise
`astype(int)` raises (modelled as `none`, aborting the run). -/
def yearOf (s : Str) : Option Int :=
  if pyIsDigit (s.take 4) then some (digitsVal (s.take 4) : Int) else none

/-- Display columns of the final projection (lines 319-321), in order:
code, name, listing date, current price, offer price, market cap. -/
def resultCols : List Str :=
  ["証券コード".data, "企業名".data, "上場日".data, "現在株価".data,
   "公募価格".data, "時価総額".data]

/-- Screening filter chain of `get_promising_ipos` (lines 293-316): one
`df_filtered = df_filtered[...]` step per predicate, in source order.
The two comparisons on nullable columns run after the corresponding
not-null filters, so their `false` default branch is never reached in
the chain. -/
def screenChain (yearNow : Int) (l : List EnrichedRow) : List EnrichedRow :=
  let f1 := l.filter (fun r => decide (yearNow - 10 ≤ r.listingYear))
  let f2 := f1.filter (fun r => r.priced.base.publicPrice.isSome)
  let f3 := f2.filter (fun r => r.priced.currentPrice.isSome)
  let f4 := f3.filter (fun r =>
    match r.priced.currentPrice, r.priced.base.publicPrice with
    | some c, some p => decide (c < p)
    | _, _ => false)
  let f5 := f4.filter (fun r => r.marketCap.isSome)
  let f6 := f5.filter (fun r =>
    match r.marketCap with
    | some m => decide ((30 : ℚ) ≤ m) && decide (m ≤ (700 : ℚ))
    | none => false)
  let f7 := f6.filter (fun r => r.ownerCeo)
  f7

/-- Projection of a retained row to the six display columns. -/
def projectRow (e : EnrichedRow) : ResultRow :=
  { code := e.priced.base.code
  , company := e.priced.base.company
  , listedDate := e.priced.base.listedDate
  , currentPrice := e.priced.currentPrice
  , publicPrice := e.priced.base.publicPrice
  , marketCap := e.marketCap }

/-- Filter plus projection plus dense re-indexing (lines 291-321). -/
def filter_project (yearNow : Int) (l : List EnrichedRow) : ResultFrame :=
  { cols := resultCols, rows := (screenChain yearNow l).map projectRow }

/-- Spec-side retention predicate: the claim's seven predicates,
conjoined in the stated order. -/
def specRetain (yearNow : Int) (r : EnrichedRow) : Bool :=
  decide (yearNow - 10 ≤ r.listingYear) &&
  r.priced.base.publicPrice.isSome &&
  r.priced.currentPrice.isSome &&
  (match r.priced.currentPrice, r.priced.base.publicPrice with
   | some c, some p => decide (c < p)
   | _, _ => false) &&
  r.marketCap.isSome &&
  (match r.marketCap with
   | some m => decide ((30 : ℚ) ≤ m) && decide (m ≤ (700 : ℚ))
   | none => false) &&
  r.ownerCeo

/-- Observable effect of the orchestrator: one oracle call per row per
enrichment stage, plus the cache write. -/
inductive Call
  | price (ticker : Str)
  | cap (code : Str)
  | owner (code : Str)
  | save
deriving DecidableEq, Repr

/-- Enrichment calls issued on the normal path, in stage order (all
price lookups, then all market-cap lookups, then all owner lookups). -/
def callLog (rows : List ListingRow) : List Call :=
  rows.map (fun r => Call.price (tickerOf r.code)) ++
  rows.map (fun r => Call.cap r.code) ++
  rows.map (fun r => Call.owner r.code)

/-- Embedding of `IPOStockService.get_promising_ipos` (lines 255-326).
Inputs: the three per-code oracles, `datetime.now().year`, the save
timestamp, the current on-disk cache blob, and the fetched listing
frame.  Outputs: the result (`none` models the `astype(int)` exception
escaping the method), the effect log, and the new cache blob. -/
def get_promising_ipos (quote capOf : Str → Option ℚ) (ownerOf : Str → Bool)
    (yearNow now : Int) (cache : Option (Except Unit CacheEntry))
    (df : ListingFrame) :
    Option ResultFrame × List Call × Option (Except Unit CacheEntry) :=
  if df.rows.isEmpty = true ∨ "証券コード".data ∉ df.cols then
    (some { cols := resultCols, rows := [] }, [], cache)
  else
    match (get_current_prices quote df).rows.mapM (fun p =>
        (yearOf p.base.listedDate).map (fun y =>
          { priced := p
          , marketCap := capOf p.base.code
          , ownerCeo := ownerOf p.base.code
          , listingYear := y : EnrichedRow })) with
    | none => (none, callLog df.rows, cache)
    | some enriched =>
        (some (filter_project yearNow enriched),
          callLog df.rows ++ [Call.save],
          some (Except.ok
            { data := some (filter_project yearNow enriched)
            , timestamp := some now }))

-- =====================================================================
-- Supporting lemmas
-- =====================================================================

/-- Helper: the suffix after the last `'～'` of `P ++ '～' :: Q` is `Q`
whenever `Q` itself contains no `'～'`. -/
theorem afterLastTilde_append (P Q : Str) (h : '～' ∉ Q) :
    afterLastTilde (P ++ '～' :: Q) = Q := by
  unfold afterLastTilde
  rw [List.reverse_append, List.reverse_cons, List.append_assoc,
    List.takeWhile_append_of_pos]
  · simp
  · intro a ha
    simp only [List.mem_reverse] at ha
    simp only [ne_eq, decide_eq_true_eq]
    intro hEq
    exact h (hEq ▸ ha)

/-- Helper: `P ++ '～' :: Q` contains `'～'`. -/
theorem contains_tilde_append (P Q : Str) :
    (P ++ '～' :: Q).contains '～' = true := by
  exact List.elem_eq_true_of_mem (by simp)

/-- Helper: the maximal leading digit run of `d ++ '億' :: X` is `d`
when `d` is all digits. -/
theorem takeWhile_digits_oku (d X : Str) (h : ∀ c ∈ d, c.isDigit = true) :
    (d ++ '億' :: X).takeWhile Char.isDigit = d := by
  rw [List.takeWhile_append_of_pos h, List.takeWhile_cons]
  simp [(by decide : Char.isDigit '億' = false)]

/-- Helper: dropping the maximal leading digit run of `d ++ '億' :: X`
leaves `'億' :: X` when `d` is all digits. -/
theorem dropWhile_digits_oku (d X : Str) (h : ∀ c ∈ d, c.isDigit = true) :
    (d ++ '億' :: X).dropWhile Char.isDigit = '億' :: X := by
  rw [List.dropWhile_append_of_pos h, List.dropWhile_cons]
  simp [(by decide : Char.isDigit '億' = false)]

/-- Validity of the spec-side matcher: `specMatchesOkuMan` holds exactly
on texts decomposable as `<digits>億<digits>万`. -/
theorem specMatchesOkuMan_iff (s : Str) :
    specMatchesOkuMan s = true ↔
      ∃ d1 d2 : Str, d1 ≠ [] ∧ d2 ≠ [] ∧
        (∀ c ∈ d1, c.isDigit = true) ∧ (∀ c ∈ d2, c.isDigit = true) ∧
        s = d1 ++ '億' :: (d2 ++ ['万']) := by
  constructor
  · intro hm
    unfold specMatchesOkuMan at hm
    simp only [Bool.and_eq_true, Bool.not_eq_true', List.isEmpty_eq_false] at hm
    obtain ⟨h1, h2⟩ := hm
    split at h2
    next r2 heq =>
      simp only [Bool.and_eq_true, Bool.not_eq_true', List.isEmpty_eq_false,
        beq_iff_eq] at h2
      refine ⟨s.takeWhile Char.isDigit, r2.takeWhile Char.isDigit, h1, h2.1,
        fun c hc => List.mem_takeWhile_imp hc,
        fun c hc => List.mem_takeWhile_imp hc, ?_⟩
      rw [← h2.2, List.takeWhile_append_dropWhile, ← heq,
        List.takeWhile_append_dropWhile]
    next => simp at h2
  · rintro ⟨d1, d2, h1, h2, hd1, hd2, rfl⟩
    unfold specMatchesOkuMan
    rw [takeWhile_digits_oku _ _ hd1, dropWhile_digits_oku _ _ hd1]
    simp only [Bool.and_eq_true, Bool.not_eq_true', List.isEmpty_eq_false]
    refine ⟨h1, ?_⟩
    rw [List.takeWhile_append_of_pos hd2, List.dropWhile_append_of_pos hd2]
    simp [h2, List.takeWhile_cons, List.dropWhile_cons,
      (by decide : Char.isDigit '万' = false)]

/-- Validity of the spec-side matcher: `specMatchesOkuOnly` holds
exactly on texts decomposable as `<digits>億`. -/
theorem specMatchesOkuOnly_iff (s : Str) :
    specMatchesOkuOnly s = true ↔
      ∃ d1 : Str, d1 ≠ [] ∧ (∀ c ∈ d1, c.isDigit = true) ∧
        s = d1 ++ ['億'] := by
  constructor
  · intro hm
    unfold specMatchesOkuOnly at hm
    simp only [Bool.and_eq_true, Bool.not_eq_true', List.isEmpty_eq_false,
      beq_iff_eq] at hm
    refine ⟨s.takeWhile Char.isDigit, hm.1,
      fun c hc => List.mem_takeWhile_imp hc, ?_⟩
    rw [← hm.2, List.takeWhile_append_dropWhile]
  · rintro ⟨d1, h1, hd1, rfl⟩
    unfold specMatchesOkuOnly
    rw [takeWhile_digits_oku _ _ hd1, dropWhile_digits_oku _ _ hd1]
    simp [h1]

/-- Helper: evaluation of `capParse` on a text shaped
`<digits>億<digits><no leading digit>`. -/
theorem capParse_oku_digits (d1 d2 rest : Str) (h1 : d1 ≠ [])
    (hd1 : ∀ c ∈ d1, c.isDigit = true) (hd2 : ∀ c ∈ d2, c.isDigit = true)
    (hrest : rest.takeWhile Char.isDigit = []) :
    capParse (d1 ++ '億' :: (d2 ++ rest)) =
      some ((digitsVal d1 : ℚ) + (digitsVal d2 : ℚ) / 10000) := by
  unfold capParse
  rw [takeWhile_digits_oku _ _ hd1, dropWhile_digits_oku _ _ hd1,
    if_neg (by simp [h1]),
    if_pos (show ('億' :: (d2 ++ rest)).head? = some '億' from rfl)]
  simp only [List.tail_cons]
  rw [List.takeWhile_append_of_pos hd2, hrest, List.append_nil]

/-- Helper: `capParse` yields `None` exactly on texts that do not begin
with a nonempty digit run followed by `億`. -/
theorem capParse_none_iff (text : Str) :
    capParse text = none ↔
      ¬ ∃ d1 rest : Str, text = d1 ++ '億' :: rest ∧ d1 ≠ [] ∧
        ∀ c ∈ d1, c.isDigit = true := by
  by_cases he : (text.takeWhile Char.isDigit).isEmpty = true
  · have hnone : capParse text = none := by
      unfold capParse; rw [if_pos he]
    rw [hnone]
    simp only [true_iff]
    rintro ⟨d1, rest, rfl, hne, hdig⟩
    rw [takeWhile_digits_oku _ _ hdig] at he
    exact hne (List.isEmpty_iff.mp he)
  · by_cases hh : (text.dropWhile Char.isDigit).head? = some '億'
    · have hsome : capParse text =
          some ((digitsVal (text.takeWhile Char.isDigit) : ℚ) +
            (digitsVal ((text.dropWhile Char.isDigit).tail.takeWhile Char.isDigit) : ℚ)
              / 10000) := by
        unfold capParse; rw [if_neg he, if_pos hh]
      rw [hsome]
      refine iff_of_false (by simp) (not_not_intro ?_)
      refine ⟨text.takeWhile Char.isDigit, (text.dropWhile Char.isDigit).tail, ?_,
        fun h0 => he (by simp [h0]),
        fun c hc => List.mem_takeWhile_imp hc⟩
      conv_lhs => rw [← List.takeWhile_append_dropWhile (p := Char.isDigit) (l := text)]
      congr 1
      match hd : text.dropWhile Char.isDigit with
      | [] => rw [hd] at hh; simp at hh
      | c :: r2 =>
          rw [hd] at hh
          simp only [List.head?_cons, Option.some.injEq] at hh
          rw [hh]
          rfl
    · have hnone : capParse text = none := by
        unfold capParse; rw [if_neg he, if_neg hh]
      rw [hnone]
      simp only [true_iff]
      rintro ⟨d1, rest, rfl, hne, hdig⟩
      rw [dropWhile_digits_oku _ _ hdig] at hh
      simp at hh

/-- Helper: a row steps to `qual` exactly when the spec-side row
predicate holds. -/
theorem rowOut_qual_iff (tds : List Str) :
    rowOut tds = RowOut.qual ↔ specRowQualifies tds = true := by
  obtain _ | ⟨a, _ | ⟨c2, r⟩⟩ := tds
  · simp [rowOut, specRowQualifies]
  · simp [rowOut, specRowQualifies]
  · simp only [rowOut, specRowQualifies]
    cases hf : findPct c2 with
    | none => simp
    | some g =>
        cases hp : pyFloat g with
        | none => simp [hp]
        | some ratio =>
            by_cases hc : (containsSeq roleMarker c2 && decide ((40 : ℚ) ≤ ratio)) = true
            · simp only [Bool.and_eq_true, decide_eq_true_eq] at hc
              simp [hp, hc]
            · simp only [Bool.and_eq_true, decide_eq_true_eq] at hc
              simp [hp, hc]

/-- Helper: a row steps to `abort` exactly when it carries a malformed
percentage token. -/
theorem rowOut_abort_iff (tds : List Str) :
    rowOut tds = RowOut.abort ↔ rowAborts tds = true := by
  obtain _ | ⟨a, _ | ⟨c2, r⟩⟩ := tds
  · simp [rowOut, rowAborts]
  · simp [rowOut, rowAborts]
  · simp only [rowOut, rowAborts]
    cases hf : findPct c2 with
    | none => simp
    | some g =>
        cases hp : pyFloat g with
        | none => simp [hp]
        | some ratio =>
            by_cases hc : (containsSeq roleMarker c2 && decide ((40 : ℚ) ≤ ratio)) = true
            · simp only [Bool.and_eq_true, decide_eq_true_eq] at hc
              simp [hp, hc]
            · simp only [Bool.and_eq_true, decide_eq_true_eq] at hc
              simp [hp, hc]

/-- Helper: a row steps to `cont` exactly when it neither qualifies nor
aborts. -/
theorem rowOut_cont_iff (tds : List Str) :
    rowOut tds = RowOut.cont ↔
      specRowQualifies tds = false ∧ rowAborts tds = false := by
  constructor
  · intro h
    constructor
    · cases hq : specRowQualifies tds
      · rfl
      · rw [← rowOut_qual_iff] at hq; rw [hq] at h; cases h
    · cases hb : rowAborts tds
      · rfl
      · rw [← rowOut_abort_iff] at hb; rw [hb] at h; cases h
  · rintro ⟨hq, hb⟩
    cases h : rowOut tds
    · rw [rowOut_qual_iff] at h; rw [h] at hq; cases hq
    · rw [rowOut_abort_iff] at h; rw [h] at hb; cases hb
    · rfl

/-- Helper: the sequential filter chain equals a single pass with the
conjunction of the seven predicates. -/
theorem screenChain_eq_filter (yearNow : Int) (l : List EnrichedRow) :
    screenChain yearNow l = l.filter (specRetain yearNow) := by
  unfold screenChain
  simp only [List.filter_filter]
  apply List.filter_congr
  intro r _
  unfold specRetain
  cases hc : r.priced.currentPrice <;> cases hp : r.priced.base.publicPrice <;>
    cases hm : r.marketCap <;>
    simp [Bool.and_comm, Bool.and_left_comm, Bool.and_assoc]

-- =====================================================================
-- Claim theorems
-- =====================================================================

/-- C3: for every price-range string of the form `P～Q` (with `Q` free of
further range delimiters, so that `Q` is the upper bound taken by
`split("～")[-1]`), offer-price extraction removes the thousands
separators from `Q` and returns its integer value exactly when the
residue is a nonempty all-digit string (Python `str.isdigit()`); any
other residue yields `None`. -/
theorem C3_offer_price_extraction (P Q : Str) (h : '～' ∉ Q) :
    extract_offer_price (P ++ '～' :: Q) =
      (if pyIsDigit (removeCommas Q)
       then some (digitsVal (removeCommas Q) : Int) else none) := by
  unfold extract_offer_price
  rw [contains_tilde_append, if_pos rfl, afterLastTilde_append P Q h]

/-- Witness for C3: `"100～1,500"` yields offer price `1500`, and the
non-numeric residue `"15a0"` of `"100～15a0"` yields `None`. -/
theorem C3_offer_price_extraction_witness :
    extract_offer_price ("100～1,500".data) = some 1500 ∧
    extract_offer_price ("100～15a0".data) = none := by
  constructor
  · have h := C3_offer_price_extraction ("100".data) ("1,500".data) (by decide)
    rw [show ("100～1,500".data) = ("100".data) ++ '～' :: ("1,500".data) from rfl, h]
    decide
  · have h := C3_offer_price_extraction ("100".data) ("15a0".data) (by decide)
    rw [show ("100～15a0".data) = ("100".data) ++ '～' :: ("15a0".data) from rfl, h]
    decide

/-- C2 counterexample: the cell text `"123億456"` matches neither the
form `<a>億<b>万` nor the form `<a>億` (certified by the spec-side
matchers), so the claim requires a `None` parse; the code nonetheless
parses it to `123 + 456/10000` (the digit group after `億` is consumed
even with no trailing `万`), which in particular is neither `None` nor
the integer part `123` alone. -/
theorem C2_market_cap_counterexample :
    specMatchesOkuMan ("123億456".data) = false ∧
    specMatchesOkuOnly ("123億456".data) = false ∧
    capParse ("123億456".data) = some ((123 : ℚ) + (456 : ℚ) / 10000) ∧
    capParse ("123億456".data) ≠ some (123 : ℚ) ∧
    capParse ("123億456".data) ≠ none := by
  have heval : capParse ("123億456".data) =
      some ((digitsVal ['1', '2', '3'] : ℚ) + (digitsVal ['4', '5', '6'] : ℚ) / 10000) :=
    (capParse_oku_digits ['1', '2', '3'] ['4', '5', '6'] []
      (by decide) (by decide) (by decide) (by decide) :
      capParse (['1', '2', '3'] ++ '億' :: (['4', '5', '6'] ++ [])) = _)
  have e1 : digitsVal ['1', '2', '3'] = 123 := by decide
  have e2 : digitsVal ['4', '5', '6'] = 456 := by decide
  rw [e1, e2] at heval
  have heq : capParse ("123億456".data) = some ((123 : ℚ) + (456 : ℚ) / 10000) := by
    rw [heval]; norm_num
  refine ⟨by decide, by decide, heq, ?_, ?_⟩
  · rw [heq]
    simp only [ne_eq, Option.some.injEq]
    norm_num
  · rw [heq]
    simp

/-- C2 (amended): for every cell text beginning with a nonempty digit
run `d1`, then `億`, then a (possibly empty) digit run `d2` followed by
no further digit (whether or not a `万` follows), the parse returns
`val d1 + val d2 / 10000`; the parse is `None` exactly when the text
does not begin with a nonempty digit run followed by `億`; a request
failure yields `None`; and only the first parsing cell of the page is
used. -/
theorem C2_market_cap_parse_amended :
    (∀ d1 d2 rest : Str, d1 ≠ [] → (∀ c ∈ d1, c.isDigit = true) →
      (∀ c ∈ d2, c.isDigit = true) → rest.takeWhile Char.isDigit = [] →
      capParse (d1 ++ '億' :: (d2 ++ rest)) =
        some ((digitsVal d1 : ℚ) + (digitsVal d2 : ℚ) / 10000)) ∧
    (∀ text : Str, capParse text = none ↔
      ¬ ∃ d1 rest : Str, text = d1 ++ '億' :: rest ∧ d1 ≠ [] ∧
        ∀ c ∈ d1, c.isDigit = true) ∧
    get_market_cap none = none ∧
    (∀ td tds v, capParse td = some v →
      get_market_cap (some (td :: tds)) = some v) ∧
    (∀ td tds, capParse td = none →
      get_market_cap (some (td :: tds)) = get_market_cap (some tds)) := by
  refine ⟨capParse_oku_digits, capParse_none_iff, rfl, ?_, ?_⟩
  · intro td tds v h
    simp [get_market_cap, List.findSome?, h]
  · intro td tds h
    simp [get_market_cap, List.findSome?, h]

/-- Witness for C2 (amended): the text `1億2万` parses to
`1 + 2/10000`. -/
theorem C2_market_cap_parse_amended_witness :
    capParse (['1'] ++ '億' :: (['2'] ++ ['万'])) =
      some ((digitsVal ['1'] : ℚ) + (digitsVal ['2'] : ℚ) / 10000) :=
  C2_market_cap_parse_amended.1 ['1'] ['2'] ['万']
    (by decide) (by decide) (by decide) (by decide)

/-- C5 counterexample: with a first scanned row whose second cell holds
the malformed percentage `"(1.2.3%)"` (the token `1.2.3` is drawn from
`[\d.]+` but `float()` rejects it) and a second row that the claim's
condition retains (`取締役`, `(50%)`), some scanned row satisfies the
claim's condition yet the classifier returns false: the malformed row
raises inside the loop and the `except` aborts the whole scan. -/
theorem C5_owner_ceo_counterexample :
    is_owner_ceo (some [["A".data, "取締役(1.2.3%)".data],
      ["B".data, "取締役(50%)".data]]) = false ∧
    specRowQualifies ["B".data, "取締役(50%)".data] = true ∧
    rowAborts ["A".data, "取締役(1.2.3%)".data] = true := by
  refine ⟨by decide, by decide, by decide⟩

/-- Step lemma: a qualifying row returns true immediately. -/
theorem owner_step_qual (tds : List Str) (rest : List (List Str))
    (h : rowOut tds = RowOut.qual) : is_owner_ceo_rows (tds :: rest) = true := by
  unfold is_owner_ceo_rows; rw [h]

/-- Step lemma: a row with a malformed percentage token aborts the scan
with result false. -/
theorem owner_step_abort (tds : List Str) (rest : List (List Str))
    (h : rowOut tds = RowOut.abort) : is_owner_ceo_rows (tds :: rest) = false := by
  unfold is_owner_ceo_rows; rw [h]

/-- Step lemma: any other row is skipped and the scan continues. -/
theorem owner_step_cont (tds : List Str) (rest : List (List Str))
    (h : rowOut tds = RowOut.cont) :
    is_owner_ceo_rows (tds :: rest) = is_owner_ceo_rows rest := by
  rw [show is_owner_ceo_rows (tds :: rest) =
      (match rowOut tds with
       | RowOut.qual => true
       | RowOut.abort => false
       | RowOut.cont => is_owner_ceo_rows rest) from rfl, h]

/-- C5 (amended): the classifier returns false on any fetch error, and
on a fetched table it returns true exactly when some scanned row
qualifies (its second cell contains the director-role marker and its
first parenthesized `[\d.]+%` token float-parses to a value `>= 40.0`)
and every earlier row neither qualifies nor carries a parenthesized
token that `float()` rejects — a malformed token on an earlier row
aborts the scan and forces false. -/
theorem C5_owner_ceo_amended :
    is_owner_ceo none = false ∧
    ∀ rows : List (List Str),
      (is_owner_ceo (some rows) = true ↔
        ∃ pre tds post, rows = pre ++ tds :: post ∧
          specRowQualifies tds = true ∧
          ∀ x ∈ pre, specRowQualifies x = false ∧ rowAborts x = false) := by
  refine ⟨rfl, ?_⟩
  intro rows
  show is_owner_ceo_rows rows = true ↔ _
  induction rows with
  | nil =>
      constructor
      · intro h; cases h
      · rintro ⟨pre, tds, post, h, -, -⟩
        cases pre <;> simp at h
  | cons tds rest ih =>
      cases hout : rowOut tds with
      | qual =>
          rw [owner_step_qual tds rest hout]
          constructor
          · intro _
            exact ⟨[], tds, rest, rfl, (rowOut_qual_iff tds).mp hout, by simp⟩
          · intro _; rfl
      | abort =>
          rw [owner_step_abort tds rest hout]
          constructor
          · intro h; cases h
          · rintro ⟨pre, r, post, heq, hq, hpre⟩
            cases pre with
            | nil =>
                simp only [List.nil_append] at heq
                obtain ⟨rfl, rfl⟩ := List.cons.inj heq
                rw [(rowOut_qual_iff tds).mpr hq] at hout
                cases hout
            | cons p pre2 =>
                simp only [List.cons_append] at heq
                obtain ⟨rfl, heq2⟩ := List.cons.inj heq
                have hfalse := (hpre tds (by simp)).2
                have htrue := (rowOut_abort_iff tds).mp hout
                rw [htrue] at hfalse
                cases hfalse
      | cont =>
          rw [owner_step_cont tds rest hout]
          rw [ih]
          have hcont := (rowOut_cont_iff tds).mp hout
          constructor
          · rintro ⟨pre, r, post, rfl, hq, hpre⟩
            refine ⟨tds :: pre, r, post, rfl, hq, ?_⟩
            intro x hx
            rcases List.mem_cons.mp hx with rfl | hx2
            · exact hcont
            · exact hpre x hx2
          · rintro ⟨pre, r, post, heq, hq, hpre⟩
            cases pre with
            | nil =>
                simp only [List.nil_append] at heq
                obtain ⟨rfl, rfl⟩ := List.cons.inj heq
                rw [(rowOut_qual_iff tds).mpr hq] at hout
                cases hout
            | cons p pre2 =>
                simp only [List.cons_append] at heq
                obtain ⟨rfl, heq2⟩ := List.cons.inj heq
                exact ⟨pre2, r, post, heq2, hq, fun x hx => hpre x (by simp [hx])⟩

/-- C6: cache validity is monotone in time for a fixed stored timestamp:
if `is_cache_valid (some ts)` is true at clock time `t`, it is true at
every earlier time, and it is false at every time at or beyond
`ts + 7 days`. -/
theorem C6_cache_validity_monotone (ts t t' : Int) :
    (is_cache_valid (some ts) t = true → t' < t →
      is_cache_valid (some ts) t' = true) ∧
    (ts + CACHE_EXPIRY_DAYS * secondsPerDay ≤ t →
      is_cache_valid (some ts) t = false) := by
  constructor
  · intro hvalid hlt
    simp only [is_cache_valid, decide_eq_true_eq] at hvalid ⊢
    omega
  · intro hexp
    simp only [is_cache_valid, decide_eq_false_iff_not, not_lt]
    exact hexp

/-- Witness for C6: with `ts = 0`, validity at time `1` propagates back
to time `0`, and time `604800` (exactly 7 days) is invalid. -/
theorem C6_cache_validity_monotone_witness :
    is_cache_valid (some 0) 0 = true ∧
    is_cache_valid (some 0) 604800 = false := by
  refine ⟨(C6_cache_validity_monotone 0 1 0).1 (by decide) (by decide), ?_⟩
  exact (C6_cache_validity_monotone 0 604800 0).2 (by decide)

/-- C7: `load_cache` returns `(None, None)` both for an absent cache
file and for a blob that fails to deserialize, and `is_cache_valid` of
an absent timestamp is false at every clock time. -/
theorem C7_load_cache_miss :
    load_cache none = (none, none) ∧
    (∀ u : Unit, load_cache (some (Except.error u)) = (none, none)) ∧
    (∀ t : Int, is_cache_valid none t = false) := by
  exact ⟨rfl, fun _ => rfl, fun _ => rfl⟩

/-- C1: the screening stage retains a row if and only if the seven
predicates hold (a single filter pass with their conjunction, in the
claimed order), drops every other row, re-indexes densely (a plain
list of the survivors in order), and projects to exactly the six
display columns in display order. -/
theorem C1_screening_filter (yearNow : Int) (l : List EnrichedRow) :
    filter_project yearNow l =
      { cols := resultCols
      , rows := (l.filter (specRetain yearNow)).map projectRow } := by
  unfold filter_project
  rw [screenChain_eq_filter]

/-- C4: when the fetched listing frame is empty or lacks the
`証券コード` column, the orchestrator returns the empty result carrying
the full fixed column set and issues no enrichment call at all. -/
theorem C4_short_circuit (quote capOf : Str → Option ℚ) (ownerOf : Str → Bool)
    (yearNow now : Int) (cache : Option (Except Unit CacheEntry))
    (df : ListingFrame)
    (h : df.rows.isEmpty = true ∨ "証券コード".data ∉ df.cols) :
    (get_promising_ipos quote capOf ownerOf yearNow now cache df).1 =
      some { cols := resultCols, rows := [] } ∧
    (get_promising_ipos quote capOf ownerOf yearNow now cache df).2.1 = [] := by
  unfold get_promising_ipos
  rw [if_pos h]
  exact ⟨rfl, rfl⟩

/-- Witness for C4: an empty listing frame short-circuits to the empty,
correctly-columned result with an empty effect log. -/
theorem C4_short_circuit_witness :
    (get_promising_ipos (fun _ => none) (fun _ => none) (fun _ => false)
      2025 0 none { cols := [], rows := [] }).1 =
        some { cols := resultCols, rows := [] } ∧
    (get_promising_ipos (fun _ => none) (fun _ => none) (fun _ => false)
      2025 0 none { cols := [], rows := [] }).2.1 = [] :=
  C4_short_circuit (fun _ => none) (fun _ => none) (fun _ => false)
    2025 0 none { cols := [], rows := [] } (Or.inl rfl)

/-- C8: rows already passing all seven predicates are a fixed point of
the screening filter — re-applying the chain to such a row set returns
it unchanged. -/
theorem C8_filter_idempotent (yearNow : Int) (l : List EnrichedRow)
    (h : ∀ r ∈ l, specRetain yearNow r = true) :
    screenChain yearNow l = l := by
  rw [screenChain_eq_filter]
  exact List.filter_eq_self.mpr h

/-- Sample row satisfying all seven screening predicates in 2025
(listing year 2022, offer price 1000, current price 800, market cap
100, owner-founder CEO true). -/
def sampleEnrichedRow : EnrichedRow :=
  { priced :=
      { base :=
          { listedDate := "2022/04/01".data
          , market := "グロース".data
          , code := "1234".data
          , company := "サンプル".data
          , publicPrice := some 1000 }
      , currentPrice := some 800 }
  , marketCap := some 100
  , ownerCeo := true
  , listingYear := 2022 }

/-- Witness for C8: the screening chain leaves the qualifying sample
row untouched. -/
theorem C8_filter_idempotent_witness :
    screenChain 2025 [sampleEnrichedRow] = [sampleEnrichedRow] :=
  C8_filter_idempotent 2025 [sampleEnrichedRow] (by decide)

/-- C9: a short-circuited run (empty listing frame or missing code
column) leaves the cache blob exactly as it was and never issues the
save effect; the cache write belongs only to the normal path after
filtering. -/
theorem C9_no_save_on_short_circuit (quote capOf : Str → Option ℚ)
    (ownerOf : Str → Bool) (yearNow now : Int)
    (cache : Option (Except Unit CacheEntry)) (df : ListingFrame)
    (h : df.rows.isEmpty = true ∨ "証券コード".data ∉ df.cols) :
    (get_promising_ipos quote capOf ownerOf yearNow now cache df).2.2 = cache ∧
    Call.save ∉ (get_promising_ipos quote capOf ownerOf yearNow now cache df).2.1 := by
  unfold get_promising_ipos
  rw [if_pos h]
  exact ⟨rfl, by simp⟩

/-- Witness for C9: with a pre-existing cache blob and an empty listing
fetch, the blob survives unchanged and no save is logged. -/
theorem C9_no_save_on_short_circuit_witness :
    (get_promising_ipos (fun _ => some 1) (fun _ => some 2) (fun _ => true)
      2024 99 (some (Except.ok { data := none, timestamp := some 5 }))
      { cols := listingCols, rows := [] }).2.2 =
        some (Except.ok { data := none, timestamp := some 5 }) ∧
    Call.save ∉ (get_promising_ipos (fun _ => some 1) (fun _ => some 2)
      (fun _ => true) 2024 99
      (some (Except.ok { data := none, timestamp := some 5 }))
      { cols := listingCols, rows := [] }).2.1 :=
  C9_no_save_on_short_circuit (fun _ => some 1) (fun _ => some 2) (fun _ => true)
    2024 99 (some (Except.ok { data := none, timestamp := some 5 }))
    { cols := listingCols, rows := [] } (Or.inl rfl)

/-- C10: the price enricher works on a copy and only extends: its
output has exactly the input rows (every pre-existing column value
unchanged, in order) and exactly one new column, `現在株価`, appended
to the input's column list. -/
theorem C10_price_enricher_frame (quote : Str → Option ℚ) (df : ListingFrame) :
    (get_current_prices quote df).rows.map PricedRow.base = df.rows ∧
    (get_current_prices quote df).cols = df.cols ++ ["現在株価".data] := by
  refine ⟨?_, rfl⟩
  unfold get_current_prices
  simp [List.map_map]
  exact List.map_id df.rows

end StockSight
